import Mathlib

/-!
Verification of the `pyencrypt` command-line client (`client_example.py`).

The Python source is shallowly embedded: the file system is a predicate
`String → Bool` telling which paths exist, HTTP is modelled by the request
value the client constructs (returning `Except.ok req` means exactly one
request is issued; `Except.error e` means the call raises before any
network exchange) and by an environment-supplied outcome for the response.
Python dictionaries holding decoded JSON are association lists with
first-occurrence lookup, matching `dict.get` semantics.
-/

set_option autoImplicit false

/-- A decoded JSON value, as produced by `json.load` / `response.json()`. -/
inductive Json where
  | null
  | bool (b : Bool)
  | num (n : Int)
  | str (s : String)
  | arr (xs : List Json)
  | obj (kvs : List (String × Json))

/-- Python truthiness of an optional string argument (`if python_version:`,
`if args.output:`): `None` and the empty string are falsy. -/
def pyTruthy : Option String → Bool
  | none => false
  | some s => s != ""

/-- `os.path.basename` on POSIX paths: the suffix after the last slash
(`p[p.rfind('/') + 1:]`). -/
def basename (p : String) : String :=
  String.mk ((p.data.reverse.takeWhile (fun c => c != '/')).reverse)

/-- ASCII model of Python `str.lower()`, applied character by character. -/
def lowerStr (s : String) : String :=
  String.mk (s.data.map Char.toLower)

/-- Python `str.endswith(suffixArg)`. -/
def strEndsWith (s suffixArg : String) : Bool :=
  List.isSuffixOf suffixArg.data s.data

/-- Python `base_url.rstrip('/')`: remove every trailing slash. -/
def rstripSlashes (s : String) : String :=
  String.mk ((s.data.reverse.dropWhile (fun c => c == '/')).reverse)

/-! ## Configuration (`load_config` / `save_config`) -/

/-- The built-in default configuration of `load_config`, in the insertion
order of the Python dict literal. -/
def defaultConfig : List (String × Json) :=
  [("base_url", Json.str "http://localhost:5000"),
   ("python_version", Json.null),
   ("timeout", Json.num 300)]

/-- One iteration of the merge loop in `load_config`:
`if key not in config: config[key] = default_config[key]` (a missing key is
appended, preserving dict insertion order). -/
def setdefaultKey (config : List (String × Json)) (key : String) (val : Json) :
    List (String × Json) :=
  if (config.lookup key).isSome then config else config ++ [(key, val)]

/-- The `for key in default_config` merge loop of `load_config`. -/
def mergeDefaults (config : List (String × Json)) : List (String × Json) :=
  defaultConfig.foldl (fun c kv => setdefaultKey c kv.1 kv.2) config

/-- The state of the configuration file on disk as seen by `load_config`:
absent, present but unreadable/unparsable (the `except` branch), or a
parsed JSON object. -/
inductive ConfigFile where
  | absent
  | unreadable
  | content (cfg : List (String × Json))

/-- `load_config`: built-in defaults when the file is missing or unreadable,
otherwise the parsed object with each missing default key appended. -/
def load_config : ConfigFile → List (String × Json)
  | ConfigFile.absent => defaultConfig
  | ConfigFile.unreadable => defaultConfig
  | ConfigFile.content cfg => mergeDefaults cfg

/-- `save_config` on the success path: `json.dump` writes the dict, which
parses back to the same object. -/
def save_config (cfg : List (String × Json)) : ConfigFile :=
  ConfigFile.content cfg

/-! ## The API client (`EncryptionClient`) -/

/-- An error raised by a client operation: local validation
(`FileNotFoundError`), a transport failure (`requests` exception, timeout or
`raise_for_status` on a non-2xx response), or a JSON-decoding failure. -/
inductive ClientError where
  | fileNotFound (path : String)
  | transport
  | protocol
deriving DecidableEq

/-- A multipart POST as constructed by `encrypt_file` / `encrypt_files`:
the URL, the file fields (field name, uploaded filename) in order, and the
plain-text form fields. -/
structure MultipartRequest where
  url : String
  fileFields : List (String × String)
  dataFields : List (String × String)
deriving DecidableEq

/-- A JSON POST as constructed by `encrypt_code`. -/
structure JsonRequest where
  url : String
  payload : List (String × Json)

structure EncryptionClient where
  base_url : String
  timeout : Int
deriving DecidableEq

/-- `EncryptionClient.__init__`: the stored base URL is the argument with
trailing slashes stripped. -/
def EncryptionClient.make (base_url : String) (timeout : Int) : EncryptionClient :=
  { base_url := rstripSlashes base_url, timeout := timeout }

/-- The remote operations of the client, with their path parameters. -/
inductive ApiOp where
  | health
  | pythonVersions
  | encryptUpload
  | encryptJson
  | downloadFile (filename : String)
  | readmeFile (filename : String)
  | outputsList
  | outputsDelete (filename : String)

/-- The endpoint string each operation passes to `_request` / `_download`
or inlines into its URL. -/
def endpointOf : ApiOp → String
  | ApiOp.health => "/health"
  | ApiOp.pythonVersions => "/api/python-versions"
  | ApiOp.encryptUpload => "/api/encrypt-file"
  | ApiOp.encryptJson => "/api/encrypt"
  | ApiOp.downloadFile f => "/download/" ++ f
  | ApiOp.readmeFile f => "/readme/" ++ f
  | ApiOp.outputsList => "/outputs"
  | ApiOp.outputsDelete f => "/outputs/" ++ f

/-- `url = f"{self.base_url}{endpoint}"`, shared by every operation. -/
def EncryptionClient.requestUrl (c : EncryptionClient) (op : ApiOp) : String :=
  c.base_url ++ endpointOf op

/-- `EncryptionClient.encrypt_file`: validate existence, then build the
multipart request. `Except.ok req` is the one request issued;
`Except.error` means the method raised before any network exchange. -/
def EncryptionClient.encrypt_file (c : EncryptionClient) (fs : String → Bool)
    (file_path : String) (python_version : Option String) :
    Except ClientError MultipartRequest :=
  if fs file_path = false then
    Except.error (ClientError.fileNotFound file_path)
  else
    let filename := basename file_path
    let is_zip := strEndsWith (lowerStr filename) ".zip"
    let files := if is_zip then [("file", filename)] else [("files", filename)]
    let data := if pyTruthy python_version then
        [("python_version", python_version.getD "")] else []
    Except.ok { url := c.base_url ++ "/api/encrypt-file",
                fileFields := files, dataFields := data }

/-- `EncryptionClient.encrypt_files`: the validation loop raises
`FileNotFoundError` at the first missing path (in input order); otherwise
one multipart request with a repeated `files` field per path. -/
def EncryptionClient.encrypt_files (c : EncryptionClient) (fs : String → Bool)
    (file_paths : List String) (python_version : Option String) :
    Except ClientError MultipartRequest :=
  match file_paths.find? (fun p => !fs p) with
  | some p => Except.error (ClientError.fileNotFound p)
  | none =>
    let files := file_paths.map (fun p => ("files", basename p))
    let data := if pyTruthy python_version then
        [("python_version", python_version.getD "")] else []
    Except.ok { url := c.base_url ++ "/api/encrypt-file",
                fileFields := files, dataFields := data }

/-- `EncryptionClient.encrypt_code`: JSON payload `{'files': files}` with
`python_version` appended when truthy. Construction cannot fail. -/
def EncryptionClient.encrypt_code (c : EncryptionClient)
    (files : List (String × String)) (python_version : Option String) :
    JsonRequest :=
  let payload : List (String × Json) :=
    [("files", Json.arr (files.map (fun fc =>
        Json.obj [("filename", Json.str fc.1), ("content", Json.str fc.2)])))]
  let payload := if pyTruthy python_version then
      payload ++ [("python_version", Json.str (python_version.getD ""))]
    else payload
  { url := c.base_url ++ "/api/encrypt", payload := payload }

/-- `EncryptionClient.get_readme`: `result.get('content', '')` on the
decoded response object. -/
def get_readme (resp : List (String × Json)) : Json :=
  (resp.lookup "content").getD (Json.str "")

/-- `EncryptionClient.list_outputs`: `result.get('files', [])`. -/
def list_outputs (resp : List (String × Json)) : Json :=
  (resp.lookup "files").getD (Json.arr [])

/-- `EncryptionClient.delete_output`: `result.get('success', False)`. -/
def delete_output (resp : List (String × Json)) : Json :=
  (resp.lookup "success").getD (Json.bool false)

/-! ## Decoded encryption results and the command handlers -/

/-- One entry of `failed_files`, read with `f.get('filename')` /
`f.get('error')`. -/
structure FailedFile where
  filename : Option String
  error : Option String
deriving DecidableEq

/-- A decoded `EncryptionResult` response body. Optional fields mirror the
`result.get(...)` accesses of the handlers. -/
structure EncryptionResult where
  success : Bool
  message : Option String
  output_file : Option String
  download_url : Option String
  failed_files : List FailedFile
  error : Option String
deriving DecidableEq

/-- The user-visible actions of the result-interpretation block shared by
the four encrypt command handlers. -/
inductive Event where
  | printPartial (message : Option String) (output_file : Option String)
      (failed : List FailedFile)
  | printSuccess (message : Option String) (output_file : Option String)
  | printDownloadLink (link : String)
  | downloadAttempt (filename : String) (dir : String)
  | printDownloaded (path : String)
  | printEncryptError (err : Option String)
  | printRequestError
  | printFileMissing (path : String)
deriving DecidableEq

/-- The prints of the `if result.get('success'):` branch that precede the
optional download: the partial-failure or full-success block, then the
download link rendered from `args.base_url` (with Python printing `None`
for a missing URL). -/
def successPrintEvents (args_base_url : String) (r : EncryptionResult) :
    List Event :=
  (if r.failed_files.isEmpty then [Event.printSuccess r.message r.output_file]
   else [Event.printPartial r.message r.output_file r.failed_files])
  ++ [Event.printDownloadLink (args_base_url ++ r.download_url.getD "None")]

/-- The `try` body and `except` clause that every encrypt handler runs once
the client call's outcome `res` is known. `dl` is the environment's outcome
for `download_result` (only consulted when a download is issued). A missing
`output_file` key makes `result['output_file']` raise `KeyError`, which the
generic `except` turns into the request-failed message and exit code 1. -/
def interpretEncryptResult (args_base_url : String) (output : Option String)
    (dl : Except ClientError String)
    (res : Except ClientError EncryptionResult) : Nat × List Event :=
  match res with
  | Except.error _ => (1, [Event.printRequestError])
  | Except.ok r =>
    if r.success then
      let pre := successPrintEvents args_base_url r
      if pyTruthy output then
        match r.output_file with
        | none => (1, pre ++ [Event.printRequestError])
        | some f =>
          match dl with
          | Except.error _ =>
            (1, pre ++ [Event.downloadAttempt f (output.getD ""),
                        Event.printRequestError])
          | Except.ok p =>
            let evs := pre ++ [Event.downloadAttempt f (output.getD ""),
                               Event.printDownloaded p]
            if r.failed_files.isEmpty then (0, evs) else (1, evs)
      else
        if r.failed_files.isEmpty then (0, pre) else (1, pre)
    else
      (1, [Event.printEncryptError r.error])

/-- `cmd_encrypt_file`: build the client, run `encrypt_file` (its
`FileNotFoundError` is caught by the handler's `except`), then interpret.
`net` is the environment's outcome for the issued request. -/
def cmd_encrypt_file (fs : String → Bool) (args_base_url : String)
    (args_timeout : Int) (file : String) (python_version output : Option String)
    (net : Except ClientError EncryptionResult) (dl : Except ClientError String) :
    Nat × List Event :=
  let c := EncryptionClient.make args_base_url args_timeout
  match c.encrypt_file fs file python_version with
  | Except.error e => interpretEncryptResult args_base_url output dl (Except.error e)
  | Except.ok _ => interpretEncryptResult args_base_url output dl net

/-- `cmd_encrypt_files`: as `cmd_encrypt_file` but over `encrypt_files`. -/
def cmd_encrypt_files (fs : String → Bool) (args_base_url : String)
    (args_timeout : Int) (files : List String) (python_version output : Option String)
    (net : Except ClientError EncryptionResult) (dl : Except ClientError String) :
    Nat × List Event :=
  let c := EncryptionClient.make args_base_url args_timeout
  match c.encrypt_files fs files python_version with
  | Except.error e => interpretEncryptResult args_base_url output dl (Except.error e)
  | Except.ok _ => interpretEncryptResult args_base_url output dl net

/-- `cmd_encrypt_code`: the existence check happens before the `try` block
and prints its own message with exit code 1; otherwise the file contents are
read (`rd`), the JSON request is built and the outcome interpreted. -/
def cmd_encrypt_code (fs : String → Bool) (rd : String → String)
    (args_base_url : String) (args_timeout : Int) (files : List String)
    (python_version output : Option String)
    (net : Except ClientError EncryptionResult) (dl : Except ClientError String) :
    Nat × List Event :=
  let c := EncryptionClient.make args_base_url args_timeout
  match files.find? (fun p => !fs p) with
  | some p => (1, [Event.printFileMissing p])
  | none =>
    let _req := c.encrypt_code (files.map (fun p => (basename p, rd p))) python_version
    interpretEncryptResult args_base_url output dl net

/-- `cmd_encrypt_text`: one inline file, no local validation. -/
def cmd_encrypt_text (args_base_url : String) (args_timeout : Int)
    (name content : String) (python_version output : Option String)
    (net : Except ClientError EncryptionResult) (dl : Except ClientError String) :
    Nat × List Event :=
  let c := EncryptionClient.make args_base_url args_timeout
  let _req := c.encrypt_code [(name, content)] python_version
  interpretEncryptResult args_base_url output dl net

/-! ## File-handle accounting for `encrypt_files` -/

/-- A primitive file-handle action: `open(path, 'rb')` or `f.close()`. -/
inductive FileAction where
  | openH (path : String)
  | closeH (path : String)
deriving DecidableEq, BEq

/-- The possible outcomes of the `requests.post` / `raise_for_status` /
`response.json()` sequence inside the `try` of `encrypt_files`. -/
inductive ReqOutcome where
  | ok (r : EncryptionResult)
  | httpError
  | netError
deriving DecidableEq

/-- `encrypt_files` with its file-handle actions made explicit: the
validation loop runs before any `open`; then one handle per path is opened
to build the multipart list, and the `finally` block closes every entry of
that list whatever the outcome of the request. -/
def encrypt_files_trace (fs : String → Bool) (file_paths : List String)
    (outcome : ReqOutcome) :
    Except ClientError EncryptionResult × List FileAction :=
  match file_paths.find? (fun p => !fs p) with
  | some p => (Except.error (ClientError.fileNotFound p), [])
  | none =>
    let opens := file_paths.map FileAction.openH
    let res : Except ClientError EncryptionResult :=
      match outcome with
      | ReqOutcome.ok r => Except.ok r
      | ReqOutcome.httpError => Except.error ClientError.transport
      | ReqOutcome.netError => Except.error ClientError.transport
    let closes := file_paths.map FileAction.closeH
    (res, opens ++ closes)

/-! ## Lemmas about association-list lookup and the default merge -/

theorem mergeDefaults_eq (cfg : List (String × Json)) :
    mergeDefaults cfg =
      setdefaultKey (setdefaultKey (setdefaultKey cfg "base_url"
        (Json.str "http://localhost:5000")) "python_version" Json.null)
        "timeout" (Json.num 300) := rfl

theorem lookup_setdefaultKey_of_some {c : List (String × Json)} {k k' : String}
    {v : Json} (val : Json) (h : c.lookup k' = some v) :
    (setdefaultKey c k val).lookup k' = some v := by
  unfold setdefaultKey
  split
  · exact h
  · simp [List.lookup_append, h]

theorem lookup_setdefaultKey_self {c : List (String × Json)} {k : String}
    (val : Json) (h : c.lookup k = none) :
    (setdefaultKey c k val).lookup k = some val := by
  unfold setdefaultKey
  rw [if_neg (by simp [h])]
  simp [List.lookup_append, h]

theorem lookup_setdefaultKey_of_ne {c : List (String × Json)} {k k' : String}
    (val : Json) (hne : k' ≠ k) (h : c.lookup k' = none) :
    (setdefaultKey c k val).lookup k' = none := by
  unfold setdefaultKey
  split
  · exact h
  · have hb : (k' == k) = false := beq_eq_false_iff_ne.mpr hne
    simp [List.lookup_append, h, List.lookup_cons, hb]

/-- C3: for a configuration file missing any of `base_url` /
`python_version` / `timeout`, `load_config` binds each missing key to its
built-in default (`"http://localhost:5000"`, `null`, `300`), keeps every key
present in the file at its stored value, and returns the full built-in
default configuration when the file does not exist. -/
theorem load_config_defaults :
    ∀ cfg : List (String × Json),
      load_config ConfigFile.absent = defaultConfig ∧
      (cfg.lookup "base_url" = none →
        (load_config (ConfigFile.content cfg)).lookup "base_url"
          = some (Json.str "http://localhost:5000")) ∧
      (cfg.lookup "python_version" = none →
        (load_config (ConfigFile.content cfg)).lookup "python_version"
          = some Json.null) ∧
      (cfg.lookup "timeout" = none →
        (load_config (ConfigFile.content cfg)).lookup "timeout"
          = some (Json.num 300)) ∧
      (∀ k v, cfg.lookup k = some v →
        (load_config (ConfigFile.content cfg)).lookup k = some v) := by
  intro cfg
  refine ⟨rfl, ?_, ?_, ?_, ?_⟩
  · intro h
    show (mergeDefaults cfg).lookup "base_url" = _
    rw [mergeDefaults_eq]
    exact lookup_setdefaultKey_of_some _
      (lookup_setdefaultKey_of_some _ (lookup_setdefaultKey_self _ h))
  · intro h
    show (mergeDefaults cfg).lookup "python_version" = _
    rw [mergeDefaults_eq]
    exact lookup_setdefaultKey_of_some _
      (lookup_setdefaultKey_self _ (lookup_setdefaultKey_of_ne _ (by decide) h))
  · intro h
    show (mergeDefaults cfg).lookup "timeout" = _
    rw [mergeDefaults_eq]
    exact lookup_setdefaultKey_self _
      (lookup_setdefaultKey_of_ne _ (by decide)
        (lookup_setdefaultKey_of_ne _ (by decide) h))
  · intro k v h
    show (mergeDefaults cfg).lookup k = _
    rw [mergeDefaults_eq]
    exact lookup_setdefaultKey_of_some _
      (lookup_setdefaultKey_of_some _ (lookup_setdefaultKey_of_some _ h))

theorem load_config_defaults_witness :
    (([("base_url", Json.str "http://example.com")] :
        List (String × Json)).lookup "python_version" = none) ∧
    ((load_config (ConfigFile.content
        [("base_url", Json.str "http://example.com")])).lookup "python_version"
      = some Json.null) ∧
    (([("base_url", Json.str "http://example.com")] :
        List (String × Json)).lookup "base_url"
      = some (Json.str "http://example.com")) ∧
    ((load_config (ConfigFile.content
        [("base_url", Json.str "http://example.com")])).lookup "base_url"
      = some (Json.str "http://example.com")) :=
  ⟨rfl, (load_config_defaults _).2.2.1 rfl, rfl,
   (load_config_defaults _).2.2.2.2 "base_url" _ rfl⟩

/-- C7: saving a configuration that carries all three keys and loading it
back yields the configuration unchanged (round-trip identity). -/
theorem config_round_trip :
    ∀ cfg : List (String × Json),
      (cfg.lookup "base_url").isSome = true →
      (cfg.lookup "python_version").isSome = true →
      (cfg.lookup "timeout").isSome = true →
      load_config (save_config cfg) = cfg := by
  intro cfg h1 h2 h3
  show mergeDefaults cfg = cfg
  have e1 : setdefaultKey cfg "base_url" (Json.str "http://localhost:5000") = cfg := by
    unfold setdefaultKey; rw [if_pos h1]
  have e2 : setdefaultKey cfg "python_version" Json.null = cfg := by
    unfold setdefaultKey; rw [if_pos h2]
  have e3 : setdefaultKey cfg "timeout" (Json.num 300) = cfg := by
    unfold setdefaultKey; rw [if_pos h3]
  rw [mergeDefaults_eq, e1, e2, e3]

theorem config_round_trip_witness :
    (([("base_url", Json.str "http://h"), ("python_version", Json.null),
       ("timeout", Json.num 60)] :
        List (String × Json)).lookup "base_url").isSome = true ∧
    load_config (save_config [("base_url", Json.str "http://h"),
      ("python_version", Json.null), ("timeout", Json.num 60)]) =
      [("base_url", Json.str "http://h"), ("python_version", Json.null),
       ("timeout", Json.num 60)] :=
  ⟨rfl, config_round_trip _ rfl rfl rfl⟩

/-- C8: on a decoded response object lacking the expected key, the accessor
substitutes a default instead of failing: `delete_output` yields `false`,
`get_readme` the empty string, `list_outputs` the empty list. -/
theorem missing_key_defaults :
    ∀ resp : List (String × Json),
      (resp.lookup "success" = none → delete_output resp = Json.bool false) ∧
      (resp.lookup "content" = none → get_readme resp = Json.str "") ∧
      (resp.lookup "files" = none → list_outputs resp = Json.arr []) := by
  intro resp
  refine ⟨?_, ?_, ?_⟩ <;> intro h <;>
    simp [delete_output, get_readme, list_outputs, h]

theorem missing_key_defaults_witness :
    (([("other", Json.null)] : List (String × Json)).lookup "success" = none) ∧
    delete_output [("other", Json.null)] = Json.bool false ∧
    get_readme [("other", Json.null)] = Json.str "" ∧
    list_outputs [("other", Json.null)] = Json.arr [] :=
  ⟨rfl, (missing_key_defaults _).1 rfl, (missing_key_defaults _).2.1 rfl,
   (missing_key_defaults _).2.2 rfl⟩

/-! ## Request construction: field names, validation, python_version -/

theorem find_not_eq_none_iff_all (fs : String → Bool) (ps : List String) :
    (ps.find? (fun q => !fs q) = none) ↔ ps.all fs = true := by
  simp [List.find?_eq_none, List.all_eq_true]

theorem find_first_missing (fs : String → Bool) :
    ∀ (l₁ : List String) (p : String) (l₂ : List String),
      (∀ q ∈ l₁, fs q = true) → fs p = false →
      (l₁ ++ p :: l₂).find? (fun q => !fs q) = some p := by
  intro l₁
  induction l₁ with
  | nil =>
    intro p l₂ _ hp
    simp [hp]
  | cons x xs ih =>
    intro p l₂ hall hp
    have hx : fs x = true := hall x (by simp)
    simp only [List.cons_append]
    rw [List.find?_cons_of_neg _ (by simp [hx])]
    exact ih p l₂ (fun q hq => hall q (by simp [hq])) hp

/-- C1: for an existing path, `encrypt_file` issues exactly one request
whose single file field is named `file` when the lower-cased basename ends
in `.zip` and `files` otherwise, and whose form data carries
`python_version` only when that argument was provided (and non-empty). -/
theorem encrypt_file_multipart_fields :
    ∀ (base : String) (t : Int) (fs : String → Bool) (path : String)
      (pv : Option String), fs path = true →
      ∃ req, (EncryptionClient.make base t).encrypt_file fs path pv
          = Except.ok req ∧
        req.fileFields.length = 1 ∧
        (strEndsWith (lowerStr (basename path)) ".zip" = true →
          req.fileFields = [("file", basename path)]) ∧
        (strEndsWith (lowerStr (basename path)) ".zip" = false →
          req.fileFields = [("files", basename path)]) ∧
        (∀ v, ("python_version", v) ∈ req.dataFields → pv ≠ none) ∧
        (pyTruthy pv = true →
          req.dataFields = [("python_version", pv.getD "")]) ∧
        (pyTruthy pv = false → req.dataFields = []) := by
  intro base t fs path pv h
  refine ⟨{ url := rstripSlashes base ++ "/api/encrypt-file",
            fileFields := if strEndsWith (lowerStr (basename path)) ".zip"
              then [("file", basename path)] else [("files", basename path)],
            dataFields := if pyTruthy pv
              then [("python_version", pv.getD "")] else [] },
          ?_, ?_, ?_, ?_, ?_, ?_, ?_⟩
  · simp [EncryptionClient.encrypt_file, EncryptionClient.make, h]
  · split <;> rfl
  · intro hz; simp [hz]
  · intro hz; simp [hz]
  · intro v hv hnone
    subst hnone
    simp [pyTruthy] at hv
  · intro hp; simp [hp]
  · intro hp; simp [hp]

theorem encrypt_file_multipart_fields_witness :
    ((fun p => p == "project.zip") "project.zip" = true) ∧
    ∃ req, (EncryptionClient.make "http://localhost:5000" 300).encrypt_file
        (fun p => p == "project.zip") "project.zip" none = Except.ok req ∧
      req.fileFields.length = 1 ∧
      (strEndsWith (lowerStr (basename "project.zip")) ".zip" = true →
        req.fileFields = [("file", basename "project.zip")]) ∧
      (strEndsWith (lowerStr (basename "project.zip")) ".zip" = false →
        req.fileFields = [("files", basename "project.zip")]) ∧
      (∀ v, ("python_version", v) ∈ req.dataFields →
        (none : Option String) ≠ none) ∧
      (pyTruthy none = true →
        req.dataFields = [("python_version", (none : Option String).getD "")]) ∧
      (pyTruthy none = false → req.dataFields = []) :=
  ⟨by decide, encrypt_file_multipart_fields _ _ _ _ _ (by decide)⟩

/-- C4: a missing path makes `encrypt_file` raise `FileNotFoundError`
naming it, and makes `encrypt_files` raise `FileNotFoundError` naming the
first missing path in input order; the `Except.error` result means no
request value is ever constructed, hence no HTTP exchange occurs. -/
theorem validation_before_network :
    ∀ (base : String) (t : Int) (fs : String → Bool) (path : String)
      (paths l₁ l₂ : List String) (p : String) (pv : Option String),
      (fs path = false →
        (EncryptionClient.make base t).encrypt_file fs path pv
          = Except.error (ClientError.fileNotFound path)) ∧
      (paths = l₁ ++ p :: l₂ → (∀ q ∈ l₁, fs q = true) → fs p = false →
        (EncryptionClient.make base t).encrypt_files fs paths pv
          = Except.error (ClientError.fileNotFound p)) := by
  intro base t fs path paths l₁ l₂ p pv
  constructor
  · intro h
    simp [EncryptionClient.encrypt_file, h]
  · intro he hall hp
    subst he
    simp [EncryptionClient.encrypt_files, find_first_missing fs l₁ p l₂ hall hp]

theorem validation_before_network_witness :
    ((fun q => q == "a") "b" = false) ∧
    (EncryptionClient.make "http://u" 300).encrypt_file
        (fun q => q == "a") "b" none
      = Except.error (ClientError.fileNotFound "b") ∧
    (EncryptionClient.make "http://u" 300).encrypt_files
        (fun q => q == "a") ["a", "c"] none
      = Except.error (ClientError.fileNotFound "c") :=
  ⟨by decide,
   (validation_before_network "http://u" 300 (fun q => q == "a") "b"
      ["a", "c"] ["a"] [] "c" none).1 (by decide),
   (validation_before_network "http://u" 300 (fun q => q == "a") "b"
      ["a", "c"] ["a"] [] "c" none).2 rfl (by decide) (by decide)⟩

/-- Whether a constructed multipart request carries a `python_version` form
field (`false` when the call raised before building a request). -/
def hasPyFieldMultipart (e : Except ClientError MultipartRequest) : Bool :=
  match e with
  | Except.error _ => false
  | Except.ok req => (req.dataFields.lookup "python_version").isSome

/-- Whether a JSON payload carries a `python_version` member. -/
def hasPyFieldJson (req : JsonRequest) : Bool :=
  (req.payload.lookup "python_version").isSome

/-- C10: an empty-string `python_version` behaves exactly like `None` in
all three encrypt operations, and the outgoing request carries the
`python_version` field precisely when the argument is truthy (non-`None`
and non-empty) — for the upload operations, when a request is issued at
all. -/
theorem empty_python_version_like_none :
    ∀ (base : String) (t : Int) (fs : String → Bool) (path : String)
      (paths : List String) (fls : List (String × String)) (pv : Option String),
      ((EncryptionClient.make base t).encrypt_file fs path (some "")
        = (EncryptionClient.make base t).encrypt_file fs path none) ∧
      ((EncryptionClient.make base t).encrypt_files fs paths (some "")
        = (EncryptionClient.make base t).encrypt_files fs paths none) ∧
      ((EncryptionClient.make base t).encrypt_code fls (some "")
        = (EncryptionClient.make base t).encrypt_code fls none) ∧
      (hasPyFieldMultipart
          ((EncryptionClient.make base t).encrypt_file fs path pv)
        = (fs path && pyTruthy pv)) ∧
      (hasPyFieldMultipart
          ((EncryptionClient.make base t).encrypt_files fs paths pv)
        = (paths.all fs && pyTruthy pv)) ∧
      (hasPyFieldJson ((EncryptionClient.make base t).encrypt_code fls pv)
        = pyTruthy pv) := by
  intro base t fs path paths fls pv
  refine ⟨?_, ?_, ?_, ?_, ?_, ?_⟩
  · simp [EncryptionClient.encrypt_file, pyTruthy]
  · simp [EncryptionClient.encrypt_files, pyTruthy]
  · simp [EncryptionClient.encrypt_code, pyTruthy]
  · cases h : fs path with
    | false => simp [EncryptionClient.encrypt_file, hasPyFieldMultipart, h]
    | true =>
      cases hp : pyTruthy pv <;>
        simp [EncryptionClient.encrypt_file, hasPyFieldMultipart, h, hp]
  · cases hfind : paths.find? (fun q => !fs q) with
    | none =>
      have hall : paths.all fs = true :=
        (find_not_eq_none_iff_all fs paths).mp hfind
      cases hp : pyTruthy pv <;>
        simp [EncryptionClient.encrypt_files, hasPyFieldMultipart, hfind,
          hall, hp]
    | some p =>
      have hmem : p ∈ paths := List.mem_of_find?_eq_some hfind
      have hpf : fs p = false := by
        have := List.find?_some hfind
        simpa using this
      have hall : paths.all fs = false := by
        cases hAll : paths.all fs with
        | false => rfl
        | true =>
          have := List.all_eq_true.mp hAll p hmem
          rw [this] at hpf
          cases hpf
      simp [EncryptionClient.encrypt_files, hasPyFieldMultipart, hfind, hall]
  · cases hp : pyTruthy pv <;>
      simp [EncryptionClient.encrypt_code, hasPyFieldJson, hp,
        List.lookup_append, List.lookup_cons]

/-! ## URL construction and resource accounting -/

theorem strAppendAssoc (a b c : String) : a ++ b ++ c = a ++ (b ++ c) := by
  cases a with
  | mk la =>
    cases b with
    | mk lb =>
      cases c with
      | mk lc =>
        show String.mk (la ++ lb ++ lc) = String.mk (la ++ (lb ++ lc))
        rw [List.append_assoc]

theorem head_dropWhile_not (p : Char → Bool) :
    ∀ (l : List Char) (a : Char), (l.dropWhile p).head? = some a → p a = false := by
  intro l
  induction l with
  | nil => intro a h; simp [List.dropWhile] at h
  | cons x xs ih =>
    intro a h
    rw [List.dropWhile_cons] at h
    split at h
    · exact ih a h
    · rename_i hx
      simp only [List.head?_cons, Option.some.injEq] at h
      subst h
      simpa using hx

/-- C9: the constructor stores `base_url` with every trailing slash
stripped (so the stored URL never ends in `/`), and every operation's
request URL is exactly that stored value concatenated with an endpoint path
beginning with `/`; the two upload operations and the JSON operation build
their URLs the same way. -/
theorem request_url_invariant :
    ∀ (base : String) (t : Int) (op : ApiOp) (fs : String → Bool)
      (path : String) (paths : List String) (fls : List (String × String))
      (pv : Option String) (req₁ req₂ : MultipartRequest),
      ((EncryptionClient.make base t).base_url = rstripSlashes base) ∧
      (∀ a : Char, (rstripSlashes base).data.getLast? = some a → a ≠ '/') ∧
      ((EncryptionClient.make base t).requestUrl op
        = rstripSlashes base ++ endpointOf op) ∧
      (∃ rest, endpointOf op = "/" ++ rest) ∧
      ((EncryptionClient.make base t).encrypt_file fs path pv = Except.ok req₁ →
        req₁.url
          = (EncryptionClient.make base t).requestUrl ApiOp.encryptUpload) ∧
      ((EncryptionClient.make base t).encrypt_files fs paths pv
          = Except.ok req₂ →
        req₂.url
          = (EncryptionClient.make base t).requestUrl ApiOp.encryptUpload) ∧
      (((EncryptionClient.make base t).encrypt_code fls pv).url
        = (EncryptionClient.make base t).requestUrl ApiOp.encryptJson) := by
  intro base t op fs path paths fls pv req₁ req₂
  refine ⟨rfl, ?_, rfl, ?_, ?_, ?_, rfl⟩
  · intro a hlast ha
    subst ha
    have hh : ((base.data.reverse.dropWhile (fun c => c == '/')).head?)
        = some '/' := by
      have : (rstripSlashes base).data
          = (base.data.reverse.dropWhile (fun c => c == '/')).reverse := rfl
      rw [this, List.getLast?_reverse] at hlast
      exact hlast
    have := head_dropWhile_not (fun c => c == '/') _ _ hh
    simp at this
  · cases op with
    | health => exact ⟨"health", rfl⟩
    | pythonVersions => exact ⟨"api/python-versions", rfl⟩
    | encryptUpload => exact ⟨"api/encrypt-file", rfl⟩
    | encryptJson => exact ⟨"api/encrypt", rfl⟩
    | downloadFile f =>
      exact ⟨"download/" ++ f, by
        show ("/" ++ "download/") ++ f = "/" ++ ("download/" ++ f)
        rw [strAppendAssoc]⟩
    | readmeFile f =>
      exact ⟨"readme/" ++ f, by
        show ("/" ++ "readme/") ++ f = "/" ++ ("readme/" ++ f)
        rw [strAppendAssoc]⟩
    | outputsList => exact ⟨"outputs", rfl⟩
    | outputsDelete f =>
      exact ⟨"outputs/" ++ f, by
        show ("/" ++ "outputs/") ++ f = "/" ++ ("outputs/" ++ f)
        rw [strAppendAssoc]⟩
  · intro h
    unfold EncryptionClient.encrypt_file at h
    split at h
    · cases h
    · injection h with h2
      subst h2
      rfl
  · intro h
    unfold EncryptionClient.encrypt_files at h
    split at h
    · cases h
    · injection h with h2
      subst h2
      rfl

theorem request_url_invariant_witness :
    ((EncryptionClient.make "http://localhost:5000/" 300).encrypt_file
        (fun _ => true) "a.py" none = Except.ok
          { url := "http://localhost:5000/api/encrypt-file",
            fileFields := [("files", "a.py")], dataFields := [] }) ∧
    ({ url := "http://localhost:5000/api/encrypt-file",
       fileFields := [("files", "a.py")],
       dataFields := [] } : MultipartRequest).url
      = (EncryptionClient.make "http://localhost:5000/" 300).requestUrl
          ApiOp.encryptUpload :=
  ⟨rfl,
   (request_url_invariant "http://localhost:5000/" 300 ApiOp.health
      (fun _ => true) "a.py" [] [] none
      { url := "http://localhost:5000/api/encrypt-file",
        fileFields := [("files", "a.py")], dataFields := [] }
      { url := "", fileFields := [], dataFields := [] }).2.2.2.2.1
     rfl⟩

theorem beq_openH_openH (x p : String) :
    (FileAction.openH x == FileAction.openH p) = (x == p) := rfl

theorem beq_closeH_closeH (x p : String) :
    (FileAction.closeH x == FileAction.closeH p) = (x == p) := rfl

theorem count_openH_map_openH (p : String) (l : List String) :
    (l.map FileAction.openH).count (FileAction.openH p) = l.count p := by
  induction l with
  | nil => rfl
  | cons x xs ih =>
    simp only [List.map_cons, List.count_cons, ih, beq_openH_openH]

theorem count_closeH_map_closeH (p : String) (l : List String) :
    (l.map FileAction.closeH).count (FileAction.closeH p) = l.count p := by
  induction l with
  | nil => rfl
  | cons x xs ih =>
    simp only [List.map_cons, List.count_cons, ih, beq_closeH_closeH]

theorem count_openH_map_closeH (p : String) (l : List String) :
    (l.map FileAction.closeH).count (FileAction.openH p) = 0 := by
  induction l with
  | nil => rfl
  | cons x xs ih =>
    simp only [List.map_cons, List.count_cons, ih]
    rfl

theorem count_closeH_map_openH (p : String) (l : List String) :
    (l.map FileAction.openH).count (FileAction.closeH p) = 0 := by
  induction l with
  | nil => rfl
  | cons x xs ih =>
    simp only [List.map_cons, List.count_cons, ih]
    rfl

/-- C5: when every path exists, the `encrypt_files` action trace closes
each opened handle exactly as often as it opened it, for every request
outcome (successful response, non-2xx error, transport exception). -/
theorem encrypt_files_handles_closed :
    ∀ (fs : String → Bool) (paths : List String) (outcome : ReqOutcome)
      (p : String), paths.all fs = true →
      (encrypt_files_trace fs paths outcome).2.count (FileAction.openH p)
        = (encrypt_files_trace fs paths outcome).2.count (FileAction.closeH p) := by
  intro fs paths outcome p hall
  have hfind : paths.find? (fun q => !fs q) = none :=
    (find_not_eq_none_iff_all fs paths).mpr hall
  unfold encrypt_files_trace
  rw [hfind]
  simp only [List.count_append, count_openH_map_openH, count_closeH_map_closeH,
    count_openH_map_closeH, count_closeH_map_openH]
  omega

theorem encrypt_files_handles_closed_witness :
    ((["a.py", "b.py"] : List String).all (fun _ => true) = true) ∧
    (encrypt_files_trace (fun _ => true) ["a.py", "b.py"]
        ReqOutcome.netError).2.count (FileAction.openH "a.py")
      = (encrypt_files_trace (fun _ => true) ["a.py", "b.py"]
          ReqOutcome.netError).2.count (FileAction.closeH "a.py") :=
  ⟨by decide,
   encrypt_files_handles_closed (fun _ => true) ["a.py", "b.py"]
     ReqOutcome.netError "a.py" (by decide)⟩

/-! ## Exit codes and the download policy of the encrypt handlers -/

theorem find_some_all_false (fs : String → Bool) (ps : List String)
    (p : String) (h : ps.find? (fun q => !fs q) = some p) :
    ps.all fs = false := by
  have hmem : p ∈ ps := List.mem_of_find?_eq_some h
  have hpf : fs p = false := by
    have := List.find?_some h
    simpa using this
  cases hAll : ps.all fs with
  | false => rfl
  | true =>
    have := List.all_eq_true.mp hAll p hmem
    rw [this] at hpf
    cases hpf

/-- The amended success condition: the client call produced a decoded
result with `success` and no failed files, and — when an output directory
was requested — the result names an `output_file` and the subsequent
download succeeded. -/
def fullSuccess (output : Option String) (dl : Except ClientError String)
    (res : Except ClientError EncryptionResult) : Prop :=
  ∃ r, res = Except.ok r ∧ r.success = true ∧ r.failed_files = [] ∧
    (pyTruthy output = true →
      (∃ f, r.output_file = some f) ∧ ∃ p, dl = Except.ok p)

theorem interpret_exit_zero_iff (a : String) (output : Option String)
    (dl : Except ClientError String)
    (res : Except ClientError EncryptionResult) :
    (interpretEncryptResult a output dl res).1 = 0 ↔ fullSuccess output dl res := by
  cases res with
  | error e => simp [interpretEncryptResult, fullSuccess]
  | ok r =>
    cases hs : r.success with
    | false => simp [interpretEncryptResult, fullSuccess, hs]
    | true =>
      cases hpt : pyTruthy output with
      | false =>
        rcases hfl : r.failed_files with _ | ⟨x, xs⟩ <;>
          simp [interpretEncryptResult, fullSuccess, hs, hpt, hfl]
      | true =>
        cases houtf : r.output_file with
        | none => simp [interpretEncryptResult, fullSuccess, hs, hpt, houtf]
        | some f =>
          cases dl with
          | error e2 =>
            simp [interpretEncryptResult, fullSuccess, hs, hpt, houtf]
          | ok pth =>
            rcases hfl : r.failed_files with _ | ⟨x, xs⟩ <;>
              simp [interpretEncryptResult, fullSuccess, hs, hpt, houtf, hfl]

theorem interpret_exit_mem (a : String) (output : Option String)
    (dl : Except ClientError String)
    (res : Except ClientError EncryptionResult) :
    (interpretEncryptResult a output dl res).1 = 0
      ∨ (interpretEncryptResult a output dl res).1 = 1 := by
  cases res with
  | error e => simp [interpretEncryptResult]
  | ok r =>
    cases hs : r.success <;> cases hpt : pyTruthy output <;>
      cases houtf : r.output_file <;> cases dl <;>
        rcases hfl : r.failed_files with _ | ⟨x, xs⟩ <;>
          simp [interpretEncryptResult, hs, hpt, houtf, hfl]

/-- C2 (amended): an encrypt handler exits 0 exactly when local validation
passed, the decoded result has `success = true` with no failed files and,
if an output directory was requested, the result names an output file and
the download succeeds; in every other case — partial failure, hard
failure, validation failure, transport/protocol error (including one
raised by the download after a fully successful encryption) — it exits 1. -/
theorem encrypt_handler_exit_code_spec :
    ∀ (fs : String → Bool) (rd : String → String) (a : String) (t : Int)
      (file name content : String) (paths : List String)
      (pv output : Option String) (net : Except ClientError EncryptionResult)
      (dl : Except ClientError String),
      ((cmd_encrypt_file fs a t file pv output net dl).1 = 0 ↔
        fs file = true ∧ fullSuccess output dl net) ∧
      ((cmd_encrypt_files fs a t paths pv output net dl).1 = 0 ↔
        paths.all fs = true ∧ fullSuccess output dl net) ∧
      ((cmd_encrypt_code fs rd a t paths pv output net dl).1 = 0 ↔
        paths.all fs = true ∧ fullSuccess output dl net) ∧
      ((cmd_encrypt_text a t name content pv output net dl).1 = 0 ↔
        fullSuccess output dl net) ∧
      ((cmd_encrypt_file fs a t file pv output net dl).1 = 0 ∨
        (cmd_encrypt_file fs a t file pv output net dl).1 = 1) ∧
      ((cmd_encrypt_files fs a t paths pv output net dl).1 = 0 ∨
        (cmd_encrypt_files fs a t paths pv output net dl).1 = 1) ∧
      ((cmd_encrypt_code fs rd a t paths pv output net dl).1 = 0 ∨
        (cmd_encrypt_code fs rd a t paths pv output net dl).1 = 1) ∧
      ((cmd_encrypt_text a t name content pv output net dl).1 = 0 ∨
        (cmd_encrypt_text a t name content pv output net dl).1 = 1) := by
  intro fs rd a t file name content paths pv output net dl
  refine ⟨?_, ?_, ?_, ?_, ?_, ?_, ?_, ?_⟩
  · cases hv : fs file with
    | true =>
      rw [show cmd_encrypt_file fs a t file pv output net dl
          = interpretEncryptResult a output dl net from by
        simp [cmd_encrypt_file, EncryptionClient.encrypt_file, hv]]
      rw [interpret_exit_zero_iff]
      simp
    | false =>
      rw [show cmd_encrypt_file fs a t file pv output net dl
          = (1, [Event.printRequestError]) from by
        simp [cmd_encrypt_file, EncryptionClient.encrypt_file, hv,
          interpretEncryptResult]]
      simp [hv]
  · cases hfind : paths.find? (fun q => !fs q) with
    | none =>
      have hall := (find_not_eq_none_iff_all fs paths).mp hfind
      rw [show cmd_encrypt_files fs a t paths pv output net dl
          = interpretEncryptResult a output dl net from by
        simp [cmd_encrypt_files, EncryptionClient.encrypt_files, hfind]]
      rw [interpret_exit_zero_iff]
      simp [hall]
    | some p =>
      have hall := find_some_all_false fs paths p hfind
      rw [show cmd_encrypt_files fs a t paths pv output net dl
          = (1, [Event.printRequestError]) from by
        simp [cmd_encrypt_files, EncryptionClient.encrypt_files, hfind,
          interpretEncryptResult]]
      simp [hall]
  · cases hfind : paths.find? (fun q => !fs q) with
    | none =>
      have hall := (find_not_eq_none_iff_all fs paths).mp hfind
      rw [show cmd_encrypt_code fs rd a t paths pv output net dl
          = interpretEncryptResult a output dl net from by
        simp [cmd_encrypt_code, hfind]]
      rw [interpret_exit_zero_iff]
      simp [hall]
    | some p =>
      have hall := find_some_all_false fs paths p hfind
      rw [show cmd_encrypt_code fs rd a t paths pv output net dl
          = (1, [Event.printFileMissing p]) from by
        simp [cmd_encrypt_code, hfind]]
      simp [hall]
  · exact interpret_exit_zero_iff a output dl net
  · cases hv : fs file with
    | true =>
      rw [show cmd_encrypt_file fs a t file pv output net dl
          = interpretEncryptResult a output dl net from by
        simp [cmd_encrypt_file, EncryptionClient.encrypt_file, hv]]
      exact interpret_exit_mem a output dl net
    | false =>
      rw [show cmd_encrypt_file fs a t file pv output net dl
          = (1, [Event.printRequestError]) from by
        simp [cmd_encrypt_file, EncryptionClient.encrypt_file, hv,
          interpretEncryptResult]]
      simp
  · cases hfind : paths.find? (fun q => !fs q) with
    | none =>
      rw [show cmd_encrypt_files fs a t paths pv output net dl
          = interpretEncryptResult a output dl net from by
        simp [cmd_encrypt_files, EncryptionClient.encrypt_files, hfind]]
      exact interpret_exit_mem a output dl net
    | some p =>
      rw [show cmd_encrypt_files fs a t paths pv output net dl
          = (1, [Event.printRequestError]) from by
        simp [cmd_encrypt_files, EncryptionClient.encrypt_files, hfind,
          interpretEncryptResult]]
      simp
  · cases hfind : paths.find? (fun q => !fs q) with
    | none =>
      rw [show cmd_encrypt_code fs rd a t paths pv output net dl
          = interpretEncryptResult a output dl net from by
        simp [cmd_encrypt_code, hfind]]
      exact interpret_exit_mem a output dl net
    | some p =>
      rw [show cmd_encrypt_code fs rd a t paths pv output net dl
          = (1, [Event.printFileMissing p]) from by
        simp [cmd_encrypt_code, hfind]]
      simp
  · exact interpret_exit_mem a output dl net

/-- The decoded result used by the exit-code counterexample: a fully
successful encryption (`success = true`, no failed files). -/
def cexResult : EncryptionResult :=
  { success := true, message := some "done", output_file := some "out.zip",
    download_url := some "/download/out.zip", failed_files := [],
    error := none }

/-- C2 (counterexample): with a fully successful decoded result
(`success = true`, `failed_files = []`), an output directory given, and the
subsequent download raising a transport error, `cmd_encrypt_file` returns
exit code 1 — so the handler does NOT exit 0 whenever `success` is true and
`failed_files` is empty. -/
theorem exit_code_iff_counterexample :
    ¬ (((cmd_encrypt_file (fun _ => true) "http://localhost:5000" 300 "a.py"
          none (some "dist") (Except.ok cexResult)
          (Except.error ClientError.transport)).1 = 0)
        ↔ (cexResult.success = true ∧ cexResult.failed_files = [])) := by
  intro h
  have h1 := h.mpr ⟨rfl, rfl⟩
  exact absurd h1 (by decide)

/-- Observer for the event trace: is this event a `download_result`
attempt? -/
def isDownloadAttempt : Event → Bool
  | Event.downloadAttempt _ _ => true
  | Event.printPartial _ _ _ => false
  | Event.printSuccess _ _ => false
  | Event.printDownloadLink _ => false
  | Event.printDownloaded _ => false
  | Event.printEncryptError _ => false
  | Event.printRequestError => false
  | Event.printFileMissing _ => false

/-- The decoded result used by the download-policy counterexample:
`success = true` but no `output_file` key, so `result['output_file']`
raises `KeyError` before `download_result` is called. -/
def noOutputResult : EncryptionResult :=
  { success := true, message := some "ok", output_file := none,
    download_url := some "/download/out.zip", failed_files := [],
    error := none }

/-- The decoded result used by the download-policy witness: a fully
successful encryption naming an output file. -/
def okResult : EncryptionResult :=
  { success := true, message := some "ok", output_file := some "out.zip",
    download_url := some "/download/out.zip", failed_files := [],
    error := none }

theorem interpret_download_attempt (a : String) (output : Option String)
    (dl : Except ClientError String) (r : EncryptionResult) (f : String)
    (hout : pyTruthy output = true) (hs : r.success = true)
    (hof : r.output_file = some f) :
    ∃ rest, (interpretEncryptResult a output dl (Except.ok r)).2
      = successPrintEvents a r
          ++ Event.downloadAttempt f (output.getD "") :: rest := by
  cases dl with
  | error e =>
    refine ⟨[Event.printRequestError], ?_⟩
    simp [interpretEncryptResult, hs, hout, hof]
  | ok pth =>
    refine ⟨[Event.printDownloaded pth], ?_⟩
    cases hfl : r.failed_files.isEmpty <;>
      simp [interpretEncryptResult, hs, hout, hof, hfl]

theorem interpret_no_output_file (a : String) (output : Option String)
    (dl : Except ClientError String) (r : EncryptionResult)
    (hout : pyTruthy output = true) (hs : r.success = true)
    (hof : r.output_file = none) :
    interpretEncryptResult a output dl (Except.ok r)
      = (1, successPrintEvents a r ++ [Event.printRequestError]) := by
  simp [interpretEncryptResult, hs, hout, hof]

theorem interpret_hard_failure (a : String) (output : Option String)
    (dl : Except ClientError String) (r : EncryptionResult)
    (hs : r.success = false) :
    interpretEncryptResult a output dl (Except.ok r)
      = (1, [Event.printEncryptError r.error]) := by
  simp [interpretEncryptResult, hs]

theorem successPrintEvents_no_download (a : String) (r : EncryptionResult) :
    (successPrintEvents a r).filter isDownloadAttempt = [] := by
  cases hfl : r.failed_files.isEmpty <;>
    simp [successPrintEvents, hfl, isDownloadAttempt]

/-- C6 (counterexample): `cmd_encrypt_file` with an output directory given
and a decoded result with `success = true` but no `output_file` key: the
`result['output_file']` lookup raises before `download_result` is called,
so the event trace contains no download attempt and the handler exits 1 —
refuting the claim that a download is attempted whenever `success` is true
and an output directory was given. -/
theorem download_attempt_counterexample :
    noOutputResult.success = true ∧
    pyTruthy (some "dist") = true ∧
    ((cmd_encrypt_file (fun _ => true) "http://h" 300 "a.py" none
        (some "dist") (Except.ok noOutputResult)
        (Except.ok "dist/out.zip")).2.filter isDownloadAttempt = []) ∧
    (cmd_encrypt_file (fun _ => true) "http://h" 300 "a.py" none
        (some "dist") (Except.ok noOutputResult)
        (Except.ok "dist/out.zip")).1 = 1 := by
  refine ⟨rfl, rfl, ?_, ?_⟩ <;> decide

/-- C6 (amended): for every encrypt command handler (encrypt-file,
encrypt-files, encrypt-code, encrypt-text) invoked with an output
directory argument, once local validation has passed: when the decoded
result has `success = true` and names an `output_file`, `download_result`
is attempted directly after the result-interpretation prints, in the
partial-failure case as well as the full-success case; when
`success = true` but the `output_file` key is absent, no download is
attempted (the `output_file` lookup raises) and the handler exits 1; when
`success = false`, no download is attempted and the interpretation prints
only the server-reported error. -/
theorem download_attempt_all_handlers :
    ∀ (fs : String → Bool) (rd : String → String) (a : String) (t : Int)
      (file name content : String) (paths : List String)
      (pv output : Option String) (dl : Except ClientError String)
      (r : EncryptionResult) (f : String),
      fs file = true → paths.all fs = true → pyTruthy output = true →
      ((r.success = true → r.output_file = some f →
        (∃ rest, (cmd_encrypt_file fs a t file pv output
            (Except.ok r) dl).2
          = successPrintEvents a r
              ++ Event.downloadAttempt f (output.getD "") :: rest) ∧
        (∃ rest, (cmd_encrypt_files fs a t paths pv output
            (Except.ok r) dl).2
          = successPrintEvents a r
              ++ Event.downloadAttempt f (output.getD "") :: rest) ∧
        (∃ rest, (cmd_encrypt_code fs rd a t paths pv output
            (Except.ok r) dl).2
          = successPrintEvents a r
              ++ Event.downloadAttempt f (output.getD "") :: rest) ∧
        (∃ rest, (cmd_encrypt_text a t name content pv output
            (Except.ok r) dl).2
          = successPrintEvents a r
              ++ Event.downloadAttempt f (output.getD "") :: rest)) ∧
      (r.success = true → r.output_file = none →
        ((cmd_encrypt_file fs a t file pv output
            (Except.ok r) dl).2.filter isDownloadAttempt = [] ∧
          (cmd_encrypt_file fs a t file pv output (Except.ok r) dl).1 = 1) ∧
        ((cmd_encrypt_files fs a t paths pv output
            (Except.ok r) dl).2.filter isDownloadAttempt = [] ∧
          (cmd_encrypt_files fs a t paths pv output (Except.ok r) dl).1 = 1) ∧
        ((cmd_encrypt_code fs rd a t paths pv output
            (Except.ok r) dl).2.filter isDownloadAttempt = [] ∧
          (cmd_encrypt_code fs rd a t paths pv output
            (Except.ok r) dl).1 = 1) ∧
        ((cmd_encrypt_text a t name content pv output
            (Except.ok r) dl).2.filter isDownloadAttempt = [] ∧
          (cmd_encrypt_text a t name content pv output
            (Except.ok r) dl).1 = 1)) ∧
      (r.success = false →
        (cmd_encrypt_file fs a t file pv output (Except.ok r) dl
          = (1, [Event.printEncryptError r.error])) ∧
        (cmd_encrypt_files fs a t paths pv output (Except.ok r) dl
          = (1, [Event.printEncryptError r.error])) ∧
        (cmd_encrypt_code fs rd a t paths pv output (Except.ok r) dl
          = (1, [Event.printEncryptError r.error])) ∧
        (cmd_encrypt_text a t name content pv output (Except.ok r) dl
          = (1, [Event.printEncryptError r.error])))) := by
  intro fs rd a t file name content paths pv output dl r f hfs hall hout
  have hfind : paths.find? (fun q => !fs q) = none :=
    (find_not_eq_none_iff_all fs paths).mpr hall
  have e1 : ∀ net dl2, cmd_encrypt_file fs a t file pv output net dl2
      = interpretEncryptResult a output dl2 net := by
    intro net dl2
    simp [cmd_encrypt_file, EncryptionClient.encrypt_file, hfs]
  have e2 : ∀ net dl2, cmd_encrypt_files fs a t paths pv output net dl2
      = interpretEncryptResult a output dl2 net := by
    intro net dl2
    simp [cmd_encrypt_files, EncryptionClient.encrypt_files, hfind]
  have e3 : ∀ net dl2, cmd_encrypt_code fs rd a t paths pv output net dl2
      = interpretEncryptResult a output dl2 net := by
    intro net dl2
    simp [cmd_encrypt_code, hfind]
  have e4 : ∀ net dl2, cmd_encrypt_text a t name content pv output net dl2
      = interpretEncryptResult a output dl2 net := fun _ _ => rfl
  refine ⟨?_, ?_, ?_⟩
  · intro hs hof
    have hA := interpret_download_attempt a output dl r f hout hs hof
    exact ⟨by rw [e1]; exact hA, by rw [e2]; exact hA,
      by rw [e3]; exact hA, by rw [e4]; exact hA⟩
  · intro hs hof
    have hI := interpret_no_output_file a output dl r hout hs hof
    have hF : (successPrintEvents a r
        ++ [Event.printRequestError]).filter isDownloadAttempt = [] := by
      rw [List.filter_append, successPrintEvents_no_download]
      rfl
    exact ⟨⟨by rw [e1, hI]; exact hF, by rw [e1, hI]⟩,
      ⟨by rw [e2, hI]; exact hF, by rw [e2, hI]⟩,
      ⟨by rw [e3, hI]; exact hF, by rw [e3, hI]⟩,
      ⟨by rw [e4, hI]; exact hF, by rw [e4, hI]⟩⟩
  · intro hs
    have hI := interpret_hard_failure a output dl r hs
    exact ⟨by rw [e1]; exact hI, by rw [e2]; exact hI,
      by rw [e3]; exact hI, by rw [e4]; exact hI⟩

theorem download_attempt_all_handlers_witness :
    ((fun _ => true) "a.py" = true) ∧
    ((["a.py"] : List String).all (fun _ => true) = true) ∧
    (pyTruthy (some "dist") = true) ∧
    (okResult.success = true) ∧
    (okResult.output_file = some "out.zip") ∧
    (∃ rest, (cmd_encrypt_file (fun _ => true) "http://h" 300 "a.py" none
        (some "dist") (Except.ok okResult) (Except.ok "dist/out.zip")).2
      = successPrintEvents "http://h" okResult
          ++ Event.downloadAttempt "out.zip"
              ((some "dist").getD "") :: rest) ∧
    (∃ rest, (cmd_encrypt_files (fun _ => true) "http://h" 300 ["a.py"] none
        (some "dist") (Except.ok okResult) (Except.ok "dist/out.zip")).2
      = successPrintEvents "http://h" okResult
          ++ Event.downloadAttempt "out.zip"
              ((some "dist").getD "") :: rest) ∧
    (∃ rest, (cmd_encrypt_code (fun _ => true) (fun _ => "x") "http://h" 300
        ["a.py"] none (some "dist") (Except.ok okResult)
        (Except.ok "dist/out.zip")).2
      = successPrintEvents "http://h" okResult
          ++ Event.downloadAttempt "out.zip"
              ((some "dist").getD "") :: rest) ∧
    (∃ rest, (cmd_encrypt_text "http://h" 300 "t.py" "pass" none
        (some "dist") (Except.ok okResult) (Except.ok "dist/out.zip")).2
      = successPrintEvents "http://h" okResult
          ++ Event.downloadAttempt "out.zip"
              ((some "dist").getD "") :: rest) := by
  have h := (download_attempt_all_handlers (fun _ => true) (fun _ => "x")
      "http://h" 300 "a.py" "t.py" "pass" ["a.py"] none (some "dist")
      (Except.ok "dist/out.zip") okResult "out.zip" rfl rfl rfl).1 rfl rfl
  exact ⟨rfl, rfl, rfl, rfl, rfl, h.1, h.2.1, h.2.2.1, h.2.2.2⟩
